import Mathlib

/-!
Verification of the knowledge-graph generator pipeline (src/app.py).

The heart of the program is `create_networkx_graph`, which converts the
JSON object returned by the LLM into an undirected simple graph
(networkx `nx.Graph` semantics) and decorates each node with a display
size and a community color.  We embed that function, together with the
error-handling shape of `extract_knowledge_graph` and `main`, as
executable Lean definitions and prove the specified properties.

Modelling decisions, all read off the Python source:
* a relationship object is a record of three optional strings
  (`rel.get("source")`, `rel.get("target")`, `rel.get("relationship", "")`);
* Python string truthiness (`if source and target`) is `truthy`:
  a missing field or the empty string is falsy;
* `nx.Graph` is a simple undirected graph: `add_node` is idempotent,
  `add_edge` creates missing endpoints and overwrites the attributes of
  an existing edge on the same unordered pair (last write wins);
  `G.degree` counts a self-loop twice;
* the call to `networkx.algorithms.community.greedy_modularity_communities`
  is an external library call; it enters the embedding as a parameter
  `Option (List (List String))`, where `none` models the call raising
  (the source wraps it in a bare try/except) and `some comms` models it
  returning a list of communities;
* the Groq network call and `json.loads` are likewise external; they enter
  `extract_knowledge_graph` as an `ApiOutcome` and a parse function.
-/

/-- A relationship object from the JSON payload: each field is optional,
mirroring `rel.get("source")`, `rel.get("target")`, `rel.get("relationship")`. -/
structure Relationship where
  source : Option String
  target : Option String
  relationship : Option String
deriving DecidableEq, Repr

/-- The parsed JSON object handed to `create_networkx_graph`: the
`concepts` and `relationships` fields may each be absent
(`data.get("concepts", [])`, `data.get("relationships", [])`). -/
structure ExtractionData where
  concepts : Option (List String)
  relationships : Option (List Relationship)
deriving DecidableEq, Repr

/-- Python truthiness of an optional string: `None` and `""` are falsy. -/
def truthy : Option String → Bool
  | none => false
  | some s => !(s == "")

/-- The concepts list with the `data.get("concepts", [])` default. -/
def ExtractionData.conceptList (d : ExtractionData) : List String :=
  d.concepts.getD []

/-- The relationships list with the `data.get("relationships", [])` default. -/
def ExtractionData.relList (d : ExtractionData) : List Relationship :=
  d.relationships.getD []

/-- The source string actually passed to `G.add_edge` (defined when truthy). -/
def relSrc (r : Relationship) : String := r.source.getD ""

/-- The target string actually passed to `G.add_edge` (defined when truthy). -/
def relTgt (r : Relationship) : String := r.target.getD ""

/-- The label passed to `G.add_edge`: `rel.get("relationship", "")`. -/
def relLbl (r : Relationship) : String := r.relationship.getD ""

/-- An edge of the networkx graph: stored endpoints (in first-insertion
order) and the current `label` attribute. -/
structure Edge where
  u : String
  v : String
  label : String
deriving DecidableEq, Repr

/-- An `nx.Graph`: node list in insertion order (no duplicates), edge list
with at most one edge per unordered endpoint pair. -/
structure Graph where
  nodes : List String
  edges : List Edge
deriving DecidableEq, Repr

def Graph.empty : Graph := { nodes := [], edges := [] }

/-- Does edge `e` connect the unordered pair `{u, v}`? -/
def sameEnds (e : Edge) (u v : String) : Bool :=
  (e.u == u && e.v == v) || (e.u == v && e.v == u)

/-- `G.add_node(n)`: a no-op when the node already exists. -/
def addNode (G : Graph) (n : String) : Graph :=
  if n ∈ G.nodes then G else { G with nodes := G.nodes ++ [n] }

/-- Adjacency update of `G.add_edge`: overwrites the label of an existing
edge on the same unordered pair, otherwise appends a fresh edge. -/
def addEdgeAux (G2 : Graph) (u v lbl : String) : Graph :=
  if G2.edges.any (fun e => sameEnds e u v) then
    { G2 with edges := (G2.edges.map
        (fun e => if sameEnds e u v then { u := e.u, v := e.v, label := lbl } else e)) }
  else
    { G2 with edges := G2.edges ++ [{ u := u, v := v, label := lbl }] }

/-- `G.add_edge(u, v, label=lbl)`: inserts missing endpoints as nodes,
then updates the adjacency. -/
def addEdge (G : Graph) (u v lbl : String) : Graph :=
  addEdgeAux (addNode (addNode G u) v) u v lbl

/-- Is there an edge on the unordered pair `{u, v}`? -/
def hasEdge (G : Graph) (u v : String) : Bool :=
  G.edges.any (fun e => sameEnds e u v)

/-- The current label of the edge on `{u, v}`, if present. -/
def edgeLabel (G : Graph) (u v : String) : Option String :=
  (G.edges.find? (fun e => sameEnds e u v)).map Edge.label

/-- One iteration of the relationship loop: `if source and target:
G.add_edge(source, target, title=relationship, label=relationship)`. -/
def addRel (G : Graph) (r : Relationship) : Graph :=
  if truthy r.source && truthy r.target then
    addEdge G (relSrc r) (relTgt r) (relLbl r)
  else G

def addRels (G : Graph) : List Relationship → Graph
  | [] => G
  | r :: rs => addRels (addRel G r) rs

def addConcepts (G : Graph) : List String → Graph
  | [] => G
  | c :: cs => addConcepts (addNode G c) cs

/-- The node/edge phase of `create_networkx_graph` (lines 92-104):
nodes from `concepts`, then edges from `relationships`. -/
def buildGraph (d : ExtractionData) : Graph :=
  addRels (addConcepts Graph.empty d.conceptList) d.relList

/-- Contribution of one edge to the degree of `n` (a self-loop counts 2,
as in networkx). -/
def edgeWeight (n : String) (e : Edge) : Nat :=
  (if e.u = n then 1 else 0) + (if e.v = n then 1 else 0)

/-- `G.degree()[n]`: networkx degree, self-loops counted twice. -/
def degree (G : Graph) (n : String) : Nat :=
  (G.edges.map (edgeWeight n)).sum

/-- Number of distinct edges incident to `n`, each counted once —
this is the quantity the spec calls the degree. -/
def incidentCount (G : Graph) (n : String) : Nat :=
  (G.edges.filter (fun e => e.u == n || e.v == n)).length

/-- Number of self-loop edges at `n`. -/
def selfLoopCount (G : Graph) (n : String) : Nat :=
  (G.edges.filter (fun e => e.u == n && e.v == n)).length

/-- The fixed neon palette (source line 115). -/
def colorsPalette : List String :=
  ["#FF5733", "#33FF57", "#3357FF", "#F333FF", "#33FFF5", "#FFFF33"]

/-- Default node color, used by the fallback branch and by
`node_colors.get(node, "#97c2fc")`. -/
def defaultColor : String := "#97c2fc"

/-- `node_colors[node] = color`: one Python-dict assignment. -/
def setColor (m : String → Option String) (node c : String) : String → Option String :=
  fun x => if x = node then some c else m x

/-- The inner loop `for node in comm: node_colors[node] = color`. -/
def setColors (m : String → Option String) (c : String) : List String → (String → Option String)
  | [] => m
  | n :: ns => setColors (setColor m n c) c ns

/-- The outer loop `for i, comm in enumerate(communities)`, carrying the
running index `i`; each community is painted `colors[i % len(colors)]`. -/
def assignColors (m : String → Option String) (i : Nat) :
    List (List String) → (String → Option String)
  | [] => m
  | comm :: rest => assignColors (setColors m (colorsPalette.getD (i % 6) "") comm) (i + 1) rest

/-- The `node_colors` dict after the try/except block: on success the
enumerated communities are painted from the palette; on failure every
node of the graph is mapped to the default color. -/
def nodeColorMap (commResult : Option (List (List String))) (G : Graph) :
    String → Option String :=
  match commResult with
  | some comms => assignColors (fun _ => none) 0 comms
  | none => fun n => if n ∈ G.nodes then some defaultColor else none

/-- The graph returned by `create_networkx_graph`, with the per-node
visual attributes applied by the final loop (lines 127-140). -/
structure VGraph where
  graph : Graph
  sizes : List (String × Nat)
  colors : List (String × String)
deriving DecidableEq, Repr

/-- `create_networkx_graph(data)` with the community-detection library
call abstracted as `commResult` (`none` = the call raised). -/
def create_networkx_graph (d : ExtractionData)
    (commResult : Option (List (List String))) : VGraph :=
  { graph := buildGraph d
  , sizes := (buildGraph d).nodes.map (fun n => (n, 20 + degree (buildGraph d) n * 5))
  , colors := (buildGraph d).nodes.map
      (fun n => (n, (nodeColorMap commResult (buildGraph d) n).getD defaultColor)) }

/-- Outcome of the Groq chat-completion call: either the response content
string or a raised exception carrying a message. -/
inductive ApiOutcome where
  | ok (content : String)
  | failed (msg : String)
deriving DecidableEq, Repr

/-- `extract_knowledge_graph`: the whole body sits in one try/except; any
exception (network or `json.loads`) yields `st.error(...)` and `None`.
The network call and the JSON parser are parameters.  Returns the parsed
data (or `none`) paired with the list of error messages displayed. -/
def extract_knowledge_graph (outcome : ApiOutcome)
    (parseJson : String → Except String ExtractionData) :
    Option ExtractionData × List String :=
  match outcome with
  | .failed msg => (none, ["Error calling Groq API: " ++ msg])
  | .ok content =>
    match parseJson content with
    | .error msg => (none, ["Error calling Groq API: " ++ msg])
    | .ok d => (some d, [])

/-- The graph-building step of `main`: a graph is built only when
extraction returned data (`if data:`). -/
def pipelineGraph (extractResult : Option ExtractionData) : Option Graph :=
  match extractResult with
  | none => none
  | some d => some (buildGraph d)

/-- Well-formedness maintained by every networkx operation: nodes are
duplicate-free, every edge endpoint is a node, and no two edges share the
same unordered endpoint pair. -/
def Graph.wf (G : Graph) : Prop :=
  G.nodes.Nodup ∧ (∀ e ∈ G.edges, e.u ∈ G.nodes ∧ e.v ∈ G.nodes) ∧
    G.edges.Pairwise (fun a b => sameEnds a b.u b.v = false)

/-- Concrete input refuting C1: a relationship with an empty target is
skipped, so its source never becomes a node. -/
def dC1 : ExtractionData :=
  { concepts := none
  , relationships := some [{ source := some "A", target := some "", relationship := some "r" }] }

/-- Concrete input for C2 (spec scenario 3): the target "C" is not a
declared concept. -/
def dC2 : ExtractionData :=
  { concepts := some ["A"]
  , relationships := some [{ source := some "A", target := some "C", relationship := some "implies" }] }

/-- Concrete input for C3 (spec scenario 3). -/
def dC3 : ExtractionData :=
  { concepts := some ["A"]
  , relationships := some [{ source := some "A", target := some "C", relationship := some "implies" }] }

/-- Concrete input for C4 (spec scenario 5): the same relationship twice. -/
def dC4 : ExtractionData :=
  { concepts := some []
  , relationships := some
      [ { source := some "A", target := some "B", relationship := some "uses" }
      , { source := some "A", target := some "B", relationship := some "uses" } ] }

/-- Concrete input refuting C5's counting rule: a single self-loop. -/
def dC5 : ExtractionData :=
  { concepts := some []
  , relationships := some [{ source := some "A", target := some "A", relationship := some "self" }] }

/-- Concrete input refuting C6: a second relationship on the same pair
overwrites the label "uses" with "likes". -/
def dC6 : ExtractionData :=
  { concepts := some []
  , relationships := some
      [ { source := some "A", target := some "B", relationship := some "uses" }
      , { source := some "B", target := some "A", relationship := some "likes" } ] }

/-- Concrete input witnessing the amended C6: a single relationship with
no later overwrite. -/
def dC6w : ExtractionData :=
  { concepts := some []
  , relationships := some [{ source := some "A", target := some "B", relationship := some "uses" }] }

/-- Concrete input for C7 (spec scenario 1). -/
def dC7 : ExtractionData :=
  { concepts := some ["A", "B"]
  , relationships := some [{ source := some "A", target := some "B", relationship := some "uses" }] }

/-- Concrete input for C8 (spec scenario 1), with a two-community split. -/
def dC8 : ExtractionData :=
  { concepts := some ["A", "B"]
  , relationships := some [{ source := some "A", target := some "B", relationship := some "uses" }] }

/-- Concrete input for C10: the `relationship` field is absent. -/
def dC10 : ExtractionData :=
  { concepts := some []
  , relationships := some [{ source := some "A", target := some "B", relationship := none }] }

/-- A concrete JSON parser that always fails, modelling `json.loads`
raising on malformed provider output. -/
def badParse : String → Except String ExtractionData :=
  fun _ => Except.error "Expecting value: line 1 column 1 (char 0)"


/-! ## Basic lemmas about the graph operations -/

theorem edges_addNode (G : Graph) (n : String) : (addNode G n).edges = G.edges := by
  unfold addNode
  split <;> rfl

theorem mem_addNode (G : Graph) (n m : String) :
    m ∈ (addNode G n).nodes ↔ m ∈ G.nodes ∨ m = n := by
  unfold addNode
  by_cases h : n ∈ G.nodes
  · simp only [if_pos h]
    exact ⟨Or.inl, fun hm => hm.elim id (fun e => e ▸ h)⟩
  · simp [if_neg h, List.mem_append]

theorem nodup_addNode (G : Graph) (n : String) (h : G.nodes.Nodup) :
    (addNode G n).nodes.Nodup := by
  unfold addNode
  by_cases hn : n ∈ G.nodes
  · simpa [if_pos hn]
  · simp only [if_neg hn]
    rw [List.nodup_append]
    refine ⟨h, List.nodup_singleton n, ?_⟩
    intro a ha hb
    rw [List.mem_singleton] at hb
    subst hb
    exact hn ha

theorem nodes_addEdgeAux (G2 : Graph) (u v lbl : String) :
    (addEdgeAux G2 u v lbl).nodes = G2.nodes := by
  unfold addEdgeAux
  split <;> rfl

theorem nodes_addEdge (G : Graph) (u v lbl : String) :
    (addEdge G u v lbl).nodes = (addNode (addNode G u) v).nodes := by
  unfold addEdge
  rw [nodes_addEdgeAux]

theorem mem_addEdge (G : Graph) (u v lbl m : String) :
    m ∈ (addEdge G u v lbl).nodes ↔ m ∈ G.nodes ∨ m = u ∨ m = v := by
  rw [nodes_addEdge, mem_addNode, mem_addNode, or_assoc]

theorem nodup_addEdge (G : Graph) (u v lbl : String) (h : G.nodes.Nodup) :
    (addEdge G u v lbl).nodes.Nodup := by
  rw [nodes_addEdge]
  exact nodup_addNode _ _ (nodup_addNode _ _ h)

/-- Relabelling keeps the first endpoint. -/
theorem relabel_u (e : Edge) (u v lbl : String) :
    (if sameEnds e u v then ({ u := e.u, v := e.v, label := lbl } : Edge) else e).u = e.u := by
  split <;> rfl

/-- Relabelling keeps the second endpoint. -/
theorem relabel_v (e : Edge) (u v lbl : String) :
    (if sameEnds e u v then ({ u := e.u, v := e.v, label := lbl } : Edge) else e).v = e.v := by
  split <;> rfl

/-- `sameEnds` only looks at the endpoints, never the label. -/
theorem sameEnds_relabel (e : Edge) (u v lbl s t : String) :
    sameEnds (if sameEnds e u v then { u := e.u, v := e.v, label := lbl } else e) s t
      = sameEnds e s t := by
  split <;> rfl

/-- The endpoints of every edge produced by `addEdgeAux` come from the old
edge list or are `u`, `v` themselves. -/
theorem edges_addEdgeAux_cases (G2 : Graph) (u v lbl : String) (e : Edge)
    (he : e ∈ (addEdgeAux G2 u v lbl).edges) :
    (∃ e0 ∈ G2.edges, e.u = e0.u ∧ e.v = e0.v) ∨ (e.u = u ∧ e.v = v) := by
  unfold addEdgeAux at he
  split at he
  · simp only [List.mem_map] at he
    obtain ⟨e0, he0, rfl⟩ := he
    exact Or.inl ⟨e0, he0, relabel_u e0 u v lbl, relabel_v e0 u v lbl⟩
  · simp only [List.mem_append, List.mem_singleton] at he
    rcases he with he | he
    · exact Or.inl ⟨e, he, rfl, rfl⟩
    · subst he
      exact Or.inr ⟨rfl, rfl⟩

theorem closed_addEdge (G : Graph) (u v lbl : String)
    (h : ∀ e ∈ G.edges, e.u ∈ G.nodes ∧ e.v ∈ G.nodes) :
    ∀ e ∈ (addEdge G u v lbl).edges,
      e.u ∈ (addEdge G u v lbl).nodes ∧ e.v ∈ (addEdge G u v lbl).nodes := by
  intro e he
  unfold addEdge at he
  have hedges : (addNode (addNode G u) v).edges = G.edges := by
    rw [edges_addNode, edges_addNode]
  rcases edges_addEdgeAux_cases _ u v lbl e he with ⟨e0, he0, hu, hv⟩ | ⟨hu, hv⟩
  · rw [hedges] at he0
    obtain ⟨h1, h2⟩ := h e0 he0
    rw [mem_addEdge, mem_addEdge, hu, hv]
    exact ⟨Or.inl h1, Or.inl h2⟩
  · rw [mem_addEdge, mem_addEdge, hu, hv]
    exact ⟨Or.inr (Or.inl rfl), Or.inr (Or.inr rfl)⟩

theorem simple_addEdge (G : Graph) (u v lbl : String)
    (h : G.edges.Pairwise (fun a b => sameEnds a b.u b.v = false)) :
    (addEdge G u v lbl).edges.Pairwise (fun a b => sameEnds a b.u b.v = false) := by
  unfold addEdge addEdgeAux
  rw [edges_addNode, edges_addNode]
  split
  · simp only []
    rw [List.pairwise_map]
    refine h.imp ?_
    intro a b hab
    rw [sameEnds_relabel, relabel_u, relabel_v]
    exact hab
  · simp only []
    rw [List.pairwise_append]
    refine ⟨h, List.pairwise_singleton _ _, ?_⟩
    intro a ha b hb
    rw [List.mem_singleton] at hb
    subst hb
    rename_i hany
    rw [Bool.not_eq_true, List.any_eq_false] at hany
    simpa using hany a ha

/-! ## Well-formedness of the built graph -/

theorem wf_empty : Graph.empty.wf := by
  refine ⟨List.nodup_nil, ?_, List.Pairwise.nil⟩
  intro e he
  simp [Graph.empty] at he

theorem wf_addNode (G : Graph) (n : String) (h : G.wf) : (addNode G n).wf := by
  obtain ⟨h1, h2, h3⟩ := h
  refine ⟨nodup_addNode G n h1, ?_, ?_⟩
  · intro e he
    rw [edges_addNode] at he
    obtain ⟨ha, hb⟩ := h2 e he
    exact ⟨(mem_addNode G n e.u).mpr (Or.inl ha), (mem_addNode G n e.v).mpr (Or.inl hb)⟩
  · rw [edges_addNode]
    exact h3

theorem wf_addEdge (G : Graph) (u v lbl : String) (h : G.wf) : (addEdge G u v lbl).wf := by
  obtain ⟨h1, h2, h3⟩ := h
  exact ⟨nodup_addEdge G u v lbl h1, closed_addEdge G u v lbl h2, simple_addEdge G u v lbl h3⟩

theorem wf_addRel (G : Graph) (r : Relationship) (h : G.wf) : (addRel G r).wf := by
  unfold addRel
  split
  · exact wf_addEdge _ _ _ _ h
  · exact h

theorem wf_addRels (rs : List Relationship) (G : Graph) (h : G.wf) : (addRels G rs).wf := by
  induction rs generalizing G with
  | nil => exact h
  | cons r rs ih => exact ih (addRel G r) (wf_addRel G r h)

theorem wf_addConcepts (cs : List String) (G : Graph) (h : G.wf) : (addConcepts G cs).wf := by
  induction cs generalizing G with
  | nil => exact h
  | cons c cs ih => exact ih (addNode G c) (wf_addNode G c h)

theorem wf_buildGraph (d : ExtractionData) : (buildGraph d).wf :=
  wf_addRels _ _ (wf_addConcepts _ _ wf_empty)

/-! ## Node-set characterization -/

theorem mem_addConcepts (cs : List String) (G : Graph) (m : String) :
    m ∈ (addConcepts G cs).nodes ↔ m ∈ G.nodes ∨ m ∈ cs := by
  induction cs generalizing G with
  | nil => simp [addConcepts]
  | cons c cs ih =>
    rw [addConcepts, ih, mem_addNode, List.mem_cons]
    tauto

theorem mem_addRel (G : Graph) (r : Relationship) (m : String) :
    m ∈ (addRel G r).nodes ↔
      m ∈ G.nodes ∨ (truthy r.source = true ∧ truthy r.target = true ∧
        (m = relSrc r ∨ m = relTgt r)) := by
  unfold addRel
  by_cases h : truthy r.source && truthy r.target
  · rw [if_pos h, mem_addEdge]
    rw [Bool.and_eq_true] at h
    tauto
  · rw [if_neg h]
    rw [Bool.and_eq_true] at h
    tauto

theorem mem_addRels (rs : List Relationship) (G : Graph) (m : String) :
    m ∈ (addRels G rs).nodes ↔
      m ∈ G.nodes ∨ ∃ r ∈ rs, truthy r.source = true ∧ truthy r.target = true ∧
        (m = relSrc r ∨ m = relTgt r) := by
  induction rs generalizing G with
  | nil => simp [addRels]
  | cons r rs ih =>
    rw [addRels, ih, mem_addRel]
    constructor
    · rintro (((hG | hr) | hrs))
      · exact Or.inl hG
      · exact Or.inr ⟨r, List.mem_cons_self r rs, hr⟩
      · obtain ⟨r', hr', hp⟩ := hrs
        exact Or.inr ⟨r', List.mem_cons_of_mem r hr', hp⟩
    · rintro (hG | ⟨r', hr', hp⟩)
      · exact Or.inl (Or.inl hG)
      · rw [List.mem_cons] at hr'
        rcases hr' with rfl | hr'
        · exact Or.inl (Or.inr hp)
        · exact Or.inr ⟨r', hr', hp⟩

/-- When an optional string is truthy it is `some` of its default-read. -/
theorem truthy_eq_some (o : Option String) (h : truthy o = true) : o = some (o.getD "") := by
  cases o with
  | none => simp [truthy] at h
  | some s => rfl

/-! ## Edge creation and monotonicity -/

theorem hasEdge_addEdge_self (G : Graph) (u v lbl : String) :
    hasEdge (addEdge G u v lbl) u v = true := by
  unfold addEdge addEdgeAux hasEdge
  rw [edges_addNode, edges_addNode]
  split
  · simp only [List.any_map]
    rename_i hany
    rw [List.any_eq_true] at hany ⊢
    obtain ⟨e, he, hp⟩ := hany
    refine ⟨e, he, ?_⟩
    simpa [Function.comp, sameEnds_relabel] using hp
  · simp only [List.any_append]
    simp [sameEnds]

theorem hasEdge_mono_addEdge (G : Graph) (u v l s t : String)
    (h : hasEdge G s t = true) : hasEdge (addEdge G u v l) s t = true := by
  unfold addEdge addEdgeAux hasEdge at *
  rw [edges_addNode, edges_addNode]
  split
  · simp only [List.any_map]
    rw [List.any_eq_true] at h ⊢
    obtain ⟨e, he, hp⟩ := h
    refine ⟨e, he, ?_⟩
    simpa [Function.comp, sameEnds_relabel] using hp
  · simp only [List.any_append, h, Bool.true_or]

theorem hasEdge_mono_addRel (G : Graph) (r : Relationship) (s t : String)
    (h : hasEdge G s t = true) : hasEdge (addRel G r) s t = true := by
  unfold addRel
  split
  · exact hasEdge_mono_addEdge _ _ _ _ _ _ h
  · exact h

theorem hasEdge_mono_addRels (rs : List Relationship) (G : Graph) (s t : String)
    (h : hasEdge G s t = true) : hasEdge (addRels G rs) s t = true := by
  induction rs generalizing G with
  | nil => exact h
  | cons r rs ih => exact ih (addRel G r) (hasEdge_mono_addRel G r s t h)

theorem addRels_append (l₁ l₂ : List Relationship) (G : Graph) :
    addRels G (l₁ ++ l₂) = addRels (addRels G l₁) l₂ := by
  induction l₁ generalizing G with
  | nil => rfl
  | cons r rs ih => rw [List.cons_append, addRels, addRels, ih]

/-- Every truthy relationship in the list ends up as an edge of the final
graph (possibly with its label later overwritten). -/
theorem hasEdge_of_mem_rels (rs : List Relationship) (G : Graph) (r : Relationship)
    (hr : r ∈ rs) (hs : truthy r.source = true) (ht : truthy r.target = true) :
    hasEdge (addRels G rs) (relSrc r) (relTgt r) = true := by
  obtain ⟨l₁, l₂, rfl⟩ := List.append_of_mem hr
  rw [addRels_append, addRels]
  apply hasEdge_mono_addRels
  have hrel : addRel (addRels G l₁) r
      = addEdge (addRels G l₁) (relSrc r) (relTgt r) (relLbl r) := by
    unfold addRel
    rw [hs, ht]
    rfl
  rw [hrel]
  exact hasEdge_addEdge_self _ _ _ _

/-! ## Last-write-wins labels -/

theorem edgeLabel_addEdge_self (G : Graph) (u v lbl : String) :
    edgeLabel (addEdge G u v lbl) u v = some lbl := by
  unfold addEdge addEdgeAux edgeLabel
  rw [edges_addNode, edges_addNode]
  split
  · rename_i hany
    rw [List.any_eq_true] at hany
    simp only [List.find?_map]
    have hsome : (G.edges.find? (fun e => sameEnds e u v)).isSome := by
      rw [List.find?_isSome]
      exact hany
    obtain ⟨e0, he0⟩ := Option.isSome_iff_exists.mp hsome
    have hp0 : sameEnds e0 u v = true := by
      have hq := List.find?_some he0
      simpa using hq
    have hcomp : (G.edges.find? ((fun e => sameEnds e u v) ∘
        (fun e => if sameEnds e u v then ({ u := e.u, v := e.v, label := lbl } : Edge) else e)))
        = G.edges.find? (fun e => sameEnds e u v) := by
      congr 1
      funext e
      simp [Function.comp, sameEnds_relabel]
    rw [hcomp, he0]
    simp [hp0]
  · rename_i hany
    rw [Bool.not_eq_true, List.any_eq_false] at hany
    rw [List.find?_append]
    have hnone : G.edges.find? (fun e => sameEnds e u v) = none := by
      rw [List.find?_eq_none]
      exact hany
    rw [hnone]
    simp [List.find?, sameEnds]

/-- Two pair-descriptions of the same edge name the same unordered pair. -/
theorem sameEnds_trans (e : Edge) (u v s t : String)
    (h1 : sameEnds e u v = true) (h2 : sameEnds e s t = true) :
    (u = s ∧ v = t) ∨ (u = t ∧ v = s) := by
  simp only [sameEnds, Bool.or_eq_true, Bool.and_eq_true, beq_iff_eq] at h1 h2
  rcases h1 with ⟨rfl, rfl⟩ | ⟨rfl, rfl⟩ <;> rcases h2 with ⟨h2a, h2b⟩ | ⟨h2a, h2b⟩ <;> tauto

theorem edgeLabel_addEdge_other (G : Graph) (u v l' s t lbl : String)
    (h : edgeLabel G s t = some lbl)
    (hne : sameEnds { u := u, v := v, label := l' } s t = false) :
    edgeLabel (addEdge G u v l') s t = some lbl := by
  unfold edgeLabel at h
  rw [Option.map_eq_some'] at h
  obtain ⟨e0, he0, hl0⟩ := h
  have hp0 : sameEnds e0 s t = true := by
    have hq := List.find?_some he0
    simpa using hq
  unfold addEdge addEdgeAux edgeLabel
  rw [edges_addNode, edges_addNode]
  split
  · simp only [List.find?_map]
    have hcomp : (G.edges.find? ((fun e => sameEnds e s t) ∘
        (fun e => if sameEnds e u v then ({ u := e.u, v := e.v, label := l' } : Edge) else e)))
        = G.edges.find? (fun e => sameEnds e s t) := by
      congr 1
      funext e
      simp [Function.comp, sameEnds_relabel]
    rw [hcomp, he0]
    have hne0 : sameEnds e0 u v = false := by
      by_contra hc
      rw [Bool.not_eq_false] at hc
      rcases sameEnds_trans e0 u v s t hc hp0 with ⟨rfl, rfl⟩ | ⟨rfl, rfl⟩ <;>
        simp [sameEnds] at hne
    simp [hne0, hl0]
  · rw [List.find?_append, he0]
    simp [hl0]

theorem edgeLabel_addRel_other (G : Graph) (r : Relationship) (s t lbl : String)
    (h : edgeLabel G s t = some lbl)
    (hne : truthy r.source = true → truthy r.target = true →
      sameEnds { u := relSrc r, v := relTgt r, label := relLbl r } s t = false) :
    edgeLabel (addRel G r) s t = some lbl := by
  unfold addRel
  by_cases hc : truthy r.source && truthy r.target
  · rw [if_pos hc]
    rw [Bool.and_eq_true] at hc
    exact edgeLabel_addEdge_other G _ _ _ s t lbl h (hne hc.1 hc.2)
  · rw [if_neg hc]
    exact h

theorem edgeLabel_addRels_other (rs : List Relationship) (G : Graph) (s t lbl : String)
    (h : edgeLabel G s t = some lbl)
    (hne : ∀ r ∈ rs, truthy r.source = true → truthy r.target = true →
      sameEnds { u := relSrc r, v := relTgt r, label := relLbl r } s t = false) :
    edgeLabel (addRels G rs) s t = some lbl := by
  induction rs generalizing G with
  | nil => exact h
  | cons r rs ih =>
    rw [addRels]
    refine ih (addRel G r) ?_ ?_
    · exact edgeLabel_addRel_other G r s t lbl h (hne r (List.mem_cons_self r rs))
    · intro r' hr'
      exact hne r' (List.mem_cons_of_mem r hr')

/-- A defined `edgeLabel` is carried by an actual edge of the graph. -/
theorem edgeLabel_to_mem (G : Graph) (s t lbl : String)
    (h : edgeLabel G s t = some lbl) : ∃ e ∈ G.edges, e.label = lbl := by
  unfold edgeLabel at h
  rw [Option.map_eq_some'] at h
  obtain ⟨e0, he0, hl0⟩ := h
  exact ⟨e0, List.mem_of_find?_eq_some he0, hl0⟩

/-! ## Edge count -/

theorem length_addEdge (G : Graph) (u v lbl : String) :
    (addEdge G u v lbl).edges.length ≤ G.edges.length + 1 := by
  unfold addEdge addEdgeAux
  rw [edges_addNode, edges_addNode]
  split
  · simp only [List.length_map]
    omega
  · simp only [List.length_append, List.length_singleton]
    omega

theorem length_addRel (G : Graph) (r : Relationship) :
    (addRel G r).edges.length ≤ G.edges.length + 1 := by
  unfold addRel
  split
  · exact length_addEdge _ _ _ _
  · omega

theorem length_addRels (rs : List Relationship) (G : Graph) :
    (addRels G rs).edges.length ≤ G.edges.length + rs.length := by
  induction rs generalizing G with
  | nil => simp [addRels]
  | cons r rs ih =>
    rw [addRels]
    calc (addRels (addRel G r) rs).edges.length
        ≤ (addRel G r).edges.length + rs.length := ih (addRel G r)
      _ ≤ G.edges.length + 1 + rs.length := by
          have := length_addRel G r
          omega
      _ = G.edges.length + (r :: rs).length := by
          rw [List.length_cons]
          omega

theorem edges_addConcepts (cs : List String) (G : Graph) :
    (addConcepts G cs).edges = G.edges := by
  induction cs generalizing G with
  | nil => rfl
  | cons c cs ih =>
    rw [addConcepts, ih, edges_addNode]

theorem length_buildGraph (d : ExtractionData) :
    (buildGraph d).edges.length ≤ d.relList.length := by
  unfold buildGraph
  have h1 := length_addRels d.relList (addConcepts Graph.empty d.conceptList)
  rw [edges_addConcepts] at h1
  simpa [Graph.empty] using h1

/-! ## Degree and the handshake identity -/

theorem sum_map_add {α : Type} (l : List α) (f g : α → Nat) :
    (l.map (fun x => f x + g x)).sum = (l.map f).sum + (l.map g).sum := by
  induction l with
  | nil => rfl
  | cons x xs ih =>
    simp only [List.map_cons, List.sum_cons, ih]
    omega

theorem sum_indicator_zero (l : List String) (a : String) (h : a ∉ l) :
    (l.map (fun n => if a = n then 1 else 0)).sum = 0 := by
  induction l with
  | nil => rfl
  | cons x xs ih =>
    rw [List.mem_cons, not_or] at h
    simp only [List.map_cons, List.sum_cons, if_neg h.1, ih h.2]

theorem sum_indicator_one (l : List String) (a : String) (hd : l.Nodup) (ha : a ∈ l) :
    (l.map (fun n => if a = n then 1 else 0)).sum = 1 := by
  induction l with
  | nil => simp at ha
  | cons x xs ih =>
    rw [List.nodup_cons] at hd
    rw [List.mem_cons] at ha
    rcases ha with rfl | ha
    · rw [List.map_cons, List.sum_cons, if_pos rfl, sum_indicator_zero xs a hd.1]
    · have hax : ¬ a = x := by
        rintro rfl
        exact hd.1 ha
      simp only [List.map_cons, List.sum_cons, if_neg hax]
      rw [ih hd.2 ha]

theorem handshake_aux (edges : List Edge) (nodes : List String)
    (hd : nodes.Nodup) (hc : ∀ e ∈ edges, e.u ∈ nodes ∧ e.v ∈ nodes) :
    (nodes.map (fun n => (edges.map (edgeWeight n)).sum)).sum = 2 * edges.length := by
  induction edges with
  | nil => simp
  | cons e es ih =>
    have step : (nodes.map (fun n => (List.map (edgeWeight n) (e :: es)).sum)).sum
        = (nodes.map (fun n => edgeWeight n e)).sum
          + (nodes.map (fun n => (es.map (edgeWeight n)).sum)).sum := by
      rw [← sum_map_add]
      simp only [List.map_cons, List.sum_cons]
    rw [step]
    have he := hc e (List.mem_cons_self e es)
    have hw : (nodes.map (fun n => edgeWeight n e)).sum = 2 := by
      unfold edgeWeight
      rw [sum_map_add]
      rw [sum_indicator_one nodes e.u hd he.1, sum_indicator_one nodes e.v hd he.2]
    rw [hw, ih (fun e' he' => hc e' (List.mem_cons_of_mem e he'))]
    rw [List.length_cons]
    omega

theorem degree_split_aux (l : List Edge) (n : String) :
    (l.map (edgeWeight n)).sum
      = (l.filter (fun e => e.u == n || e.v == n)).length
        + (l.filter (fun e => e.u == n && e.v == n)).length := by
  induction l with
  | nil => rfl
  | cons e es ih =>
    by_cases h1 : e.u = n <;> by_cases h2 : e.v = n <;>
      simp only [List.map_cons, List.sum_cons, List.filter_cons, edgeWeight,
        h1, h2, if_pos, if_neg, beq_iff_eq, Bool.and_eq_true, Bool.or_eq_true] <;>
      simp [h1, h2, ih] <;> omega

/-! ## Community coloring -/

theorem setColors_not_mem (l : List String) (m : String → Option String) (c n : String)
    (h : n ∉ l) : setColors m c l n = m n := by
  induction l generalizing m with
  | nil => rfl
  | cons x xs ih =>
    rw [List.mem_cons, not_or] at h
    rw [setColors, ih (setColor m x c) h.2, setColor, if_neg h.1]

theorem setColors_mem (l : List String) (m : String → Option String) (c n : String)
    (h : n ∈ l) : setColors m c l n = some c := by
  induction l generalizing m with
  | nil => simp at h
  | cons x xs ih =>
    rw [setColors]
    by_cases hx : n ∈ xs
    · exact ih (setColor m x c) hx
    · rw [List.mem_cons] at h
      rcases h with rfl | h
      · rw [setColors_not_mem xs _ c n hx, setColor, if_pos rfl]
      · exact absurd h hx

theorem assignColors_not_mem (comms : List (List String)) (m : String → Option String)
    (i : Nat) (n : String) (h : ∀ comm ∈ comms, n ∉ comm) :
    assignColors m i comms n = m n := by
  induction comms generalizing m i with
  | nil => rfl
  | cons comm rest ih =>
    rw [assignColors, ih _ (i + 1) (fun c hc => h c (List.mem_cons_of_mem comm hc))]
    exact setColors_not_mem comm m _ n (h comm (List.mem_cons_self comm rest))

theorem assignColors_get (comms : List (List String)) (m : String → Option String)
    (k i : Nat) (n : String) (hi : i < comms.length) (hn : n ∈ comms.getD i [])
    (hlater : ∀ j, i < j → j < comms.length → n ∉ comms.getD j []) :
    assignColors m k comms n = some (colorsPalette.getD ((k + i) % 6) "") := by
  induction comms generalizing m k i with
  | nil => simp at hi
  | cons comm rest ih =>
    rw [assignColors]
    cases i with
    | zero =>
      have hrest : ∀ comm' ∈ rest, n ∉ comm' := by
        intro comm' hc'
        rw [List.mem_iff_getElem] at hc'
        obtain ⟨j, hj, rfl⟩ := hc'
        intro hcontra
        have hj1 : (j : Nat) + 1 < (comm :: rest).length := by
          rw [List.length_cons]
          omega
        refine hlater (j + 1) (Nat.succ_pos j) hj1 ?_
        rw [List.getD_cons_succ, List.getD_eq_getElem rest [] hj]
        exact hcontra
      rw [assignColors_not_mem rest _ (k + 1) n hrest]
      rw [setColors_mem comm m _ n (by simpa using hn)]
      congr 2
    | succ i' =>
      have hi' : i' < rest.length := by
        rw [List.length_cons] at hi
        omega
      have hn' : n ∈ rest.getD i' [] := by
        rw [List.getD_cons_succ] at hn
        exact hn
      have hlater' : ∀ j, i' < j → j < rest.length → n ∉ rest.getD j [] := by
        intro j hj1 hj2
        have := hlater (j + 1) (by omega) (by rw [List.length_cons]; omega)
        rw [List.getD_cons_succ] at this
        exact this
      rw [ih _ (k + 1) i' hi' hn' hlater']
      congr 2
      omega

/-! ## Claim theorems -/

/-- C1, counterexample: the claimed node-set equation fails at `dC1`.
The relationship references endpoint "A", so the claimed union contains
"A", but the builder skips the relationship (empty target), so "A" is
not a node. -/
theorem nodeSet_union_claim_fails :
    "A" ∉ (buildGraph dC1).nodes ∧
      ∃ r ∈ dC1.relList, r.source = some "A" ∨ r.target = some "A" := by
  decide

/-- C1 (amended): the node set of the built graph is exactly the union of
the declared concepts and the endpoints of those relationships whose
source and target are both non-empty; endpoints of relationships with an
empty or missing source/target do not become nodes. -/
theorem nodeSet_eq_concepts_union_truthy_endpoints (d : ExtractionData) (m : String) :
    m ∈ (buildGraph d).nodes ↔
      m ∈ d.conceptList ∨ ∃ r ∈ d.relList, truthy r.source = true ∧ truthy r.target = true ∧
        (r.source = some m ∨ r.target = some m) := by
  unfold buildGraph
  rw [mem_addRels, mem_addConcepts]
  constructor
  · rintro ((h | h) | ⟨r, hr, hs, ht, hm⟩)
    · simp [Graph.empty] at h
    · exact Or.inl h
    · refine Or.inr ⟨r, hr, hs, ht, ?_⟩
      rcases hm with rfl | rfl
      · exact Or.inl (truthy_eq_some r.source hs)
      · exact Or.inr (truthy_eq_some r.target ht)
  · rintro (h | ⟨r, hr, hs, ht, hm⟩)
    · exact Or.inl (Or.inr h)
    · refine Or.inr ⟨r, hr, hs, ht, ?_⟩
      rcases hm with hm | hm
      · left
        rw [truthy_eq_some r.source hs] at hm
        simp only [Option.some.injEq] at hm
        rw [relSrc, hm]
      · right
        rw [truthy_eq_some r.target ht] at hm
        simp only [Option.some.injEq] at hm
        rw [relTgt, hm]

/-- C2, counterexample: at spec scenario 3 the relationship referencing
the undeclared concept "C" is NOT dropped: the edge is inserted and "C"
becomes a node although it was never declared. -/
theorem undeclared_endpoint_edge_not_dropped :
    (buildGraph dC2).edges.length = 1 ∧ "C" ∈ (buildGraph dC2).nodes ∧
      "C" ∉ dC2.conceptList := by
  decide

/-- C2 (amended): every edge's two endpoints exist as nodes of the graph;
a relationship referencing an undeclared source or target is not dropped
— its edge is inserted and the missing endpoints are created as nodes. -/
theorem edge_endpoints_exist (d : ExtractionData) :
    (∀ e ∈ (buildGraph d).edges, e.u ∈ (buildGraph d).nodes ∧ e.v ∈ (buildGraph d).nodes) ∧
      ∀ r ∈ d.relList, truthy r.source = true → truthy r.target = true →
        hasEdge (buildGraph d) (relSrc r) (relTgt r) = true := by
  refine ⟨(wf_buildGraph d).2.1, ?_⟩
  intro r hr hs ht
  unfold buildGraph
  exact hasEdge_of_mem_rels d.relList _ r hr hs ht

/-- C2 witness: the amended theorem applied at spec scenario 3. -/
theorem edge_endpoints_exist_witness :
    (({ u := "A", v := "C", label := "implies" } : Edge) ∈ (buildGraph dC2).edges ∧
      ("A" ∈ (buildGraph dC2).nodes ∧ "C" ∈ (buildGraph dC2).nodes)) ∧
      hasEdge (buildGraph dC2) "A" "C" = true :=
  ⟨⟨by decide, (edge_endpoints_exist dC2).1 { u := "A", v := "C", label := "implies" }
      (by decide)⟩,
   (edge_endpoints_exist dC2).2
      { source := some "A", target := some "C", relationship := some "implies" }
      (by decide) (by decide) (by decide)⟩

/-- C3: a relationship with non-empty source and target is inserted as an
edge even when its endpoints were never declared as concepts, the missing
endpoint nodes being created implicitly; at scenario 3 the result has
exactly the nodes "A", "C" and one edge. -/
theorem implicit_node_creation :
    (∀ (d : ExtractionData) (r : Relationship), r ∈ d.relList →
        truthy r.source = true → truthy r.target = true →
        relSrc r ∈ (buildGraph d).nodes ∧ relTgt r ∈ (buildGraph d).nodes ∧
          hasEdge (buildGraph d) (relSrc r) (relTgt r) = true) ∧
      ((buildGraph dC3).nodes = ["A", "C"] ∧ (buildGraph dC3).edges.length = 1) := by
  constructor
  · intro d r hr hs ht
    refine ⟨?_, ?_, ?_⟩
    · unfold buildGraph
      rw [mem_addRels]
      exact Or.inr ⟨r, hr, hs, ht, Or.inl rfl⟩
    · unfold buildGraph
      rw [mem_addRels]
      exact Or.inr ⟨r, hr, hs, ht, Or.inr rfl⟩
    · unfold buildGraph
      exact hasEdge_of_mem_rels d.relList _ r hr hs ht
  · exact ⟨by decide, by decide⟩

/-- C3 witness: the theorem applied at spec scenario 3. -/
theorem implicit_node_creation_witness :
    "A" ∈ (buildGraph dC3).nodes ∧ "C" ∈ (buildGraph dC3).nodes ∧
      hasEdge (buildGraph dC3) "A" "C" = true :=
  implicit_node_creation.1 dC3
    { source := some "A", target := some "C", relationship := some "implies" }
    (by decide) (by decide) (by decide)

/-- C4: the graph is simple — re-adding an edge on an existing unordered
pair overwrites its label (last write wins), each unordered pair carries
at most one edge, the edge count never exceeds the relationship count,
and sending the duplicate relationship \x7bA,B,"uses"\x7d twice yields a
single edge labelled "uses". -/
theorem duplicate_edges_collapse :
    (∀ (G : Graph) (u v lbl : String), edgeLabel (addEdge G u v lbl) u v = some lbl) ∧
      (∀ d : ExtractionData, (buildGraph d).edges.length ≤ d.relList.length) ∧
      (∀ d : ExtractionData,
        (buildGraph d).edges.Pairwise (fun a b => sameEnds a b.u b.v = false)) ∧
      ((buildGraph dC4).edges.length = 1 ∧
        edgeLabel (buildGraph dC4) "A" "B" = some "uses") := by
  refine ⟨edgeLabel_addEdge_self, length_buildGraph, ?_, by decide, by decide⟩
  intro d
  exact (wf_buildGraph d).2.2

/-- C5, counterexample: on a self-loop the program's degree is 2, not the
claimed once-per-occurrence incident-edge count, and the handshake sum
fails for that claimed count. -/
theorem degree_self_loop_once_fails :
    degree (buildGraph dC5) "A" ≠ incidentCount (buildGraph dC5) "A" ∧
      ((buildGraph dC5).nodes.map (incidentCount (buildGraph dC5))).sum ≠
        2 * (buildGraph dC5).edges.length := by
  decide

/-- C5 (amended): the degree of each node equals the number of distinct
incident edges with each self-loop counted twice, and the sum of all node
degrees equals 2 times the edge count (handshake invariant). -/
theorem degree_handshake (d : ExtractionData) :
    (((buildGraph d).nodes.map (degree (buildGraph d))).sum
        = 2 * (buildGraph d).edges.length) ∧
      ∀ n : String, degree (buildGraph d) n
        = incidentCount (buildGraph d) n + selfLoopCount (buildGraph d) n := by
  constructor
  · obtain ⟨h1, h2, _⟩ := wf_buildGraph d
    exact handshake_aux (buildGraph d).edges (buildGraph d).nodes h1 h2
  · intro n
    exact degree_split_aux (buildGraph d).edges n

/-- C6, counterexample: the label "uses" is carried by a relationship with
non-empty endpoints, yet no edge of the output carries it — a later
relationship on the same unordered pair overwrote it. -/
theorem label_roundtrip_fails :
    (∃ r ∈ dC6.relList, truthy r.source = true ∧ truthy r.target = true ∧
        relLbl r = "uses") ∧
      ¬ ∃ e ∈ (buildGraph dC6).edges, e.label = "uses" := by
  decide

/-- C6 (amended): every relationship label present in the input appears as
the label of some edge of the built graph, unless the relationship's
source or target was empty, or a later relationship with non-empty
endpoints on the same unordered pair overwrote the label. -/
theorem label_roundtrip_last_pair_wins (d : ExtractionData) (l₁ l₂ : List Relationship)
    (r : Relationship) (hsplit : d.relList = l₁ ++ r :: l₂)
    (hs : truthy r.source = true) (ht : truthy r.target = true)
    (hlater : ∀ r' ∈ l₂, truthy r'.source = true → truthy r'.target = true →
      sameEnds { u := relSrc r', v := relTgt r', label := relLbl r' }
        (relSrc r) (relTgt r) = false) :
    ∃ e ∈ (buildGraph d).edges, e.label = relLbl r := by
  apply edgeLabel_to_mem (buildGraph d) (relSrc r) (relTgt r)
  unfold buildGraph
  rw [hsplit, addRels_append, addRels]
  apply edgeLabel_addRels_other
  · have hrw : addRel (addRels (addConcepts Graph.empty d.conceptList) l₁) r
        = addEdge (addRels (addConcepts Graph.empty d.conceptList) l₁)
            (relSrc r) (relTgt r) (relLbl r) := by
      unfold addRel
      rw [hs, ht]
      rfl
    rw [hrw]
    exact edgeLabel_addEdge_self _ _ _ _
  · exact hlater

/-- C6 witness: the amended theorem applied to a one-relationship input. -/
theorem label_roundtrip_witness :
    ∃ e ∈ (buildGraph dC6w).edges, e.label = "uses" :=
  label_roundtrip_last_pair_wins dC6w [] []
    { source := some "A", target := some "B", relationship := some "uses" }
    (by decide) (by decide) (by decide)
    (fun r' hr' => absurd hr' (List.not_mem_nil r'))

/-- C7: every node's display size is 20 + degree × 5 (so an isolated node
has size 20), and at spec scenario 1 both nodes have degree 1 and size 25
with the single edge labelled "uses". -/
theorem node_size_formula :
    (∀ (d : ExtractionData) (c : Option (List (List String))) (p : String × Nat),
        p ∈ (create_networkx_graph d c).sizes →
          p.2 = 20 + degree (buildGraph d) p.1 * 5) ∧
      ((create_networkx_graph dC7 none).sizes = [("A", 25), ("B", 25)] ∧
        (buildGraph dC7).edges = [{ u := "A", v := "B", label := "uses" }] ∧
        degree (buildGraph dC7) "A" = 1 ∧ degree (buildGraph dC7) "B" = 1) := by
  constructor
  · intro d c p hp
    unfold create_networkx_graph at hp
    simp only [List.mem_map] at hp
    obtain ⟨n, _, rfl⟩ := hp
    rfl
  · exact ⟨by decide, by decide, by decide, by decide⟩

/-- C7 witness: the size formula applied at spec scenario 1's node "A". -/
theorem node_size_formula_witness :
    (("A", 25) : String × Nat) ∈ (create_networkx_graph dC7 none).sizes ∧
      (25 : Nat) = 20 + degree (buildGraph dC7) "A" * 5 :=
  ⟨by decide, node_size_formula.1 dC7 none ("A", 25) (by decide)⟩

/-- C8: when the community-detection call returns a list of communities,
any node whose last community occurrence is the i-th community is colored
with the fixed 6-color palette at index i mod 6 (so nodes of one
community share a color); when the call raises — e.g. on a graph with no
edges — every node gets the single default color "#97c2fc". -/
theorem community_coloring :
    (∀ (d : ExtractionData) (comms : List (List String)) (i : Nat) (n : String),
        n ∈ (buildGraph d).nodes → i < comms.length → n ∈ comms.getD i [] →
        (∀ j, i < j → j < comms.length → n ∉ comms.getD j []) →
        (n, colorsPalette.getD (i % 6) "")
          ∈ (create_networkx_graph d (some comms)).colors) ∧
      (∀ (d : ExtractionData) (n : String), n ∈ (buildGraph d).nodes →
        (n, defaultColor) ∈ (create_networkx_graph d none).colors) := by
  constructor
  · intro d comms i n hn hi hmem hlater
    have hc : nodeColorMap (some comms) (buildGraph d) n
        = some (colorsPalette.getD ((0 + i) % 6) "") := by
      unfold nodeColorMap
      exact assignColors_get comms (fun _ => none) 0 i n hi hmem hlater
    unfold create_networkx_graph
    simp only [List.mem_map]
    refine ⟨n, hn, ?_⟩
    rw [hc]
    simp [Nat.zero_add]
  · intro d n hn
    unfold create_networkx_graph
    simp only [List.mem_map]
    refine ⟨n, hn, ?_⟩
    show (n, (if n ∈ (buildGraph d).nodes then some defaultColor else none).getD defaultColor)
      = (n, defaultColor)
    rw [if_pos hn]
    rfl

/-- C8 witness: the theorem applied at spec scenario 1 with the
two-community split [["A"], ["B"]], and at the fallback branch. -/
theorem community_coloring_witness :
    ("A", "#FF5733") ∈ (create_networkx_graph dC8 (some [["A"], ["B"]])).colors ∧
      ("A", defaultColor) ∈ (create_networkx_graph dC8 none).colors :=
  ⟨community_coloring.1 dC8 [["A"], ["B"]] 0 "A" (by decide) (by decide) (by decide)
      (by
        intro j h1 h2
        rw [List.length_cons, List.length_cons, List.length_nil] at h2
        have hj : j = 1 := by omega
        subst hj
        decide),
   community_coloring.2 dC8 "A" (by decide)⟩

/-- C9: when the network call raises, or when the provider's response is
malformed JSON so the parse raises, extraction surfaces a single
human-readable error message and returns no data, and the pipeline builds
no graph. -/
theorem extraction_failure_no_graph :
    (∀ (parseJson : String → Except String ExtractionData) (msg : String),
        extract_knowledge_graph (ApiOutcome.failed msg) parseJson
            = (none, ["Error calling Groq API: " ++ msg]) ∧
          pipelineGraph (extract_knowledge_graph (ApiOutcome.failed msg) parseJson).1
            = none) ∧
      (∀ (parseJson : String → Except String ExtractionData) (content msg : String),
        parseJson content = Except.error msg →
          extract_knowledge_graph (ApiOutcome.ok content) parseJson
              = (none, ["Error calling Groq API: " ++ msg]) ∧
            pipelineGraph (extract_knowledge_graph (ApiOutcome.ok content) parseJson).1
              = none) := by
  constructor
  · intro parseJson msg
    exact ⟨rfl, rfl⟩
  · intro parseJson content msg h
    constructor
    · simp only [extract_knowledge_graph, h]
    · simp only [pipelineGraph, extract_knowledge_graph, h]

/-- C9 witness: a failing network call, and malformed JSON under a parser
that raises, both yield an error message, no data and no graph. -/
theorem extraction_failure_no_graph_witness :
    (extract_knowledge_graph (ApiOutcome.failed "connection error") badParse
        = (none, ["Error calling Groq API: connection error"]) ∧
      pipelineGraph
        (extract_knowledge_graph (ApiOutcome.failed "connection error") badParse).1
        = none) ∧
      (extract_knowledge_graph (ApiOutcome.ok "not json") badParse
          = (none, ["Error calling Groq API: Expecting value: line 1 column 1 (char 0)"]) ∧
        pipelineGraph (extract_knowledge_graph (ApiOutcome.ok "not json") badParse).1
          = none) :=
  ⟨extraction_failure_no_graph.1 badParse "connection error",
   extraction_failure_no_graph.2 badParse "not json"
     "Expecting value: line 1 column 1 (char 0)" rfl⟩

/-- C10: a relationship with non-empty source and target but an absent
`relationship` field is still inserted as an edge, with the empty string
as its label. -/
theorem missing_label_empty_string :
    (∀ (G : Graph) (r : Relationship), truthy r.source = true → truthy r.target = true →
        r.relationship = none →
        edgeLabel (addRel G r) (relSrc r) (relTgt r) = some "") ∧
      (∀ (d : ExtractionData) (r : Relationship), r ∈ d.relList →
        truthy r.source = true → truthy r.target = true →
        hasEdge (buildGraph d) (relSrc r) (relTgt r) = true) ∧
      ((buildGraph dC10).edges = [{ u := "A", v := "B", label := "" }]) := by
  refine ⟨?_, ?_, by decide⟩
  · intro G r hs ht hnone
    have hrw : addRel G r = addEdge G (relSrc r) (relTgt r) (relLbl r) := by
      unfold addRel
      rw [hs, ht]
      rfl
    have hlbl : relLbl r = "" := by
      rw [relLbl, hnone]
      rfl
    rw [hrw, hlbl]
    exact edgeLabel_addEdge_self G (relSrc r) (relTgt r) ""
  · intro d r hr hs ht
    unfold buildGraph
    exact hasEdge_of_mem_rels d.relList _ r hr hs ht

/-- C10 witness: the theorem applied at the concrete label-less input. -/
theorem missing_label_empty_string_witness :
    edgeLabel
        (addRel Graph.empty { source := some "A", target := some "B", relationship := none })
        "A" "B" = some "" ∧
      hasEdge (buildGraph dC10) "A" "B" = true :=
  ⟨missing_label_empty_string.1 Graph.empty
      { source := some "A", target := some "B", relationship := none }
      (by decide) (by decide) rfl,
   missing_label_empty_string.2.1 dC10
      { source := some "A", target := some "B", relationship := none }
      (by decide) (by decide) (by decide)⟩
